import Mathlib

/-!
# Verification of the STK500v1 upload core (`ArduinoUploader`, `serialService.ts`)

Shallow embedding of the `ArduinoUploader` class.  JS numbers that can be
`NaN` are modelled as `Option Int` (`none` = `NaN`); JS strings as
`List Char`.  The transport is abstracted as a function from the index of a
protocol exchange (`sendCommand` followed by `readResponse(2)`) to its
outcome: a send failure, a read failure (timeout / missing reader), or a
2-byte response.  `readResponse` itself is modelled separately at the
chunk level.  Progress percentages (JS doubles) are modelled as exact
rationals; the JS expressions involved (`30 + (i / n) * 50` and constants)
are monotone compositions, and IEEE rounding is monotone, so order facts
proved over `ℚ` transfer to the double-valued original.
-/

/-! ## JS numeric primitives -/

/-- A JS number as it occurs in the uploader: an integer or `NaN` (`none`). -/
abbrev JNum := Option Int

/-- Reinterpret a `Nat` below `2 ^ 32` as a signed 32-bit value. -/
def toSigned32 (n : Nat) : Int :=
  if n < 2 ^ 31 then (n : Int) else (n : Int) - 2 ^ 32

/-- JS `ToUint32`: `NaN` maps to `0`, integers are taken mod `2 ^ 32`. -/
def jsToU32 : JNum → Nat
  | none => 0
  | some i => (i.emod (2 ^ 32)).toNat

/-- JS `ToInt32`. -/
def jsToI32 (a : JNum) : Int := toSigned32 (jsToU32 a)

/-- JS bitwise `&`. -/
def jsAnd (a b : JNum) : Int := toSigned32 (Nat.land (jsToU32 a) (jsToU32 b))

/-- JS sign-propagating right shift `>>` (arithmetic shift = floor division). -/
def jsShr (a : JNum) (sh : Nat) : Int := Int.fdiv (jsToI32 a) (2 ^ (sh % 32))

/-- JS `ToUint8`, as applied by a `Uint8Array` store: `NaN` becomes `0`,
integers are taken mod 256. -/
def jsToUint8 : JNum → Nat
  | none => 0
  | some i => (i.emod 256).toNat

/-! ## JS string primitives -/

/-- The whitespace characters `trim` / `parseInt` skip. -/
def isJsWs (c : Char) : Bool :=
  c = ' ' || c = '\t' || c = '\n' || c = '\r' || c = '\x0b' || c = '\x0c'

def isHexDigitChar (c : Char) : Bool :=
  (48 ≤ c.toNat && c.toNat ≤ 57) ||
  (97 ≤ c.toNat && c.toNat ≤ 102) ||
  (65 ≤ c.toNat && c.toNat ≤ 70)

def hexDigitVal (c : Char) : Nat :=
  if 48 ≤ c.toNat ∧ c.toNat ≤ 57 then c.toNat - 48
  else if 97 ≤ c.toNat ∧ c.toNat ≤ 102 then c.toNat - 87
  else if 65 ≤ c.toNat ∧ c.toNat ≤ 70 then c.toNat - 55
  else 0

def hexNatAux : Nat → List Char → Nat
  | acc, [] => acc
  | acc, c :: cs => hexNatAux (16 * acc + hexDigitVal c) cs

/-- JS `parseInt(s, 16)`: skip whitespace, optional sign, optional `0x`
prefix, then the longest run of hex digits; `NaN` when that run is empty. -/
def jsParseIntHex (s : List Char) : JNum :=
  let s1 := s.dropWhile isJsWs
  let signed : Int × List Char :=
    match s1 with
    | '-' :: r => (-1, r)
    | '+' :: r => (1, r)
    | _ => (1, s1)
  let s3 : List Char :=
    match signed.2 with
    | '0' :: 'x' :: r => r
    | '0' :: 'X' :: r => r
    | _ => signed.2
  let ds := s3.takeWhile isHexDigitChar
  if ds.isEmpty then none else some (signed.1 * (hexNatAux 0 ds : Int))

/-- JS `s.substr(start, len)` for non-negative arguments. -/
def jsSubstr (s : List Char) (start len : Nat) : List Char :=
  (s.drop start).take len

/-- JS `s.split('\n')` (keeps empty segments; `"".split` gives `[""]`). -/
def splitNL : List Char → List (List Char)
  | [] => [[]]
  | c :: rest =>
    if c = '\n' then [] :: splitNL rest
    else
      match splitNL rest with
      | [] => [[c]]
      | s :: ss => (c :: s) :: ss

/-- JS `s.trim()`. -/
def jsTrim (s : List Char) : List Char :=
  ((s.dropWhile isJsWs).reverse.dropWhile isJsWs).reverse

def startsWithColon : List Char → Bool
  | ':' :: _ => true
  | _ => false

/-! ## Intel-HEX line handling (from `uploadHexData`) -/

/-- `hexData.split('\n').filter(line => line.trim() && line.startsWith(':'))`. -/
def hexLines (text : List Char) : List (List Char) :=
  (splitNL text).filter fun l => !(jsTrim l).isEmpty && startsWithColon l

/-- `parseInt(line.substr(1, 2), 16)` — the declared byte count. -/
def recLen (l : List Char) : JNum := jsParseIntHex (jsSubstr l 1 2)

/-- `parseInt(line.substr(7, 2), 16)` — the record type. -/
def recType (l : List Char) : JNum := jsParseIntHex (jsSubstr l 7 2)

/-- `parseInt(line.substr(3, 4), 16)` — the 16-bit record address. -/
def recAddr (l : List Char) : JNum := jsParseIntHex (jsSubstr l 3 4)

/-- JS `x > 0` (false for `NaN`). -/
def jsPos : JNum → Bool
  | none => false
  | some i => decide (0 < i)

def jsNumToNat : JNum → Nat
  | none => 0
  | some i => i.toNat

/-- The body of the `uploadHexData` loop for one line: `none` when the line
is skipped (`line.length < 11`, non-data record type, or zero/NaN declared
count), otherwise the `(address, data)` pair handed to `writePage`. -/
def processLine (l : List Char) : Option (JNum × List JNum) :=
  if l.length < 11 then none
  else if recType l = some 0 ∧ jsPos (recLen l) then
    some (recAddr l,
      (List.range (jsNumToNat (recLen l))).map fun j =>
        jsParseIntHex (jsSubstr l (9 + 2 * j) 2))
  else none

/-! ## Protocol constants and command frames -/

def STK_GET_SYNC : Int := 0x30
def STK_LOAD_ADDRESS : Int := 0x55
def STK_PROG_PAGE : Int := 0x64
def STK_LEAVE_PROGMODE : Int := 0x51
def STK_ENTER_PROGMODE : Int := 0x50
def STK_OK : Nat := 0x10
def STK_INSYNC : Nat := 0x14
def STK_CRC_EOP : Int := 0x20

def CMD_SYNC : List JNum := [some STK_GET_SYNC, some STK_CRC_EOP]
def CMD_ENTER : List JNum := [some STK_ENTER_PROGMODE, some STK_CRC_EOP]
def CMD_LEAVE : List JNum := [some STK_LEAVE_PROGMODE, some STK_CRC_EOP]

/-- The load-address frame of `writePage`:
`[STK_LOAD_ADDRESS, address & 0xFF, (address >> 8) & 0xFF, STK_CRC_EOP]`. -/
def loadCmd (addr : JNum) : List JNum :=
  [some STK_LOAD_ADDRESS,
   some (jsAnd addr (some 255)),
   some (jsAnd (some (jsShr addr 8)) (some 255)),
   some STK_CRC_EOP]

/-- The program-page frame of `writePage`:
`[STK_PROG_PAGE, (len >> 8) & 0xFF, len & 0xFF, 0x46, ...data, STK_CRC_EOP]`. -/
def pageCmd (data : List JNum) : List JNum :=
  [some STK_PROG_PAGE,
   some (jsAnd (some (jsShr (some (data.length : Int)) 8)) (some 255)),
   some (jsAnd (some (data.length : Int)) (some 255)),
   some 0x46] ++ data ++ [some STK_CRC_EOP]

/-- `sendCommand` writes `new Uint8Array(command)`. -/
def cmdBytes (c : List JNum) : List Nat := c.map jsToUint8

/-! ## Observable actions and run outcomes -/

inductive Stage
  | connecting | syncing | uploading | verifying | complete | error
deriving DecidableEq, Repr

/-- One observable action of a run: a progress snapshot handed to
`onProgress`, a byte frame written to the transport, or the `cleanup`
release of the reader/writer handles. -/
inductive Act
  | prog (s : Stage) (p : ℚ)
  | send (bs : List Nat)
  | cleanup
deriving DecidableEq, Repr

/-- The `Error` values thrown inside `uploadSketch`'s `try` block. -/
inductive UErr
  | transport
  | syncFail
  | progMode
  | setAddr (a : JNum)
  | pageWrite (a : JNum)
  | leaveFail
deriving DecidableEq, Repr

/-- Outcome of one `sendCommand` + `readResponse(2)` exchange, supplied by
the abstract transport: the send throws, the read throws (timeout /
missing handle), or exactly two response bytes arrive. -/
inductive Outcome
  | sendErr | readErr | resp (b0 b1 : Nat)
deriving DecidableEq, Repr

abbrev Beh := Nat → Outcome

structure Run where
  acts : List Act
  ok : Bool
  err : Option UErr
deriving DecidableEq, Repr

def sendsOf (acts : List Act) : List (List Nat) :=
  acts.filterMap fun a =>
    match a with
    | .send bs => some bs
    | _ => none

def progsOf (acts : List Act) : List ℚ :=
  acts.filterMap fun a =>
    match a with
    | .prog _ p => some p
    | _ => none

def errProgsOf (acts : List Act) : List ℚ :=
  acts.filterMap fun a =>
    match a with
    | .prog .error p => some p
    | _ => none

def cleanupCount (acts : List Act) : Nat :=
  (acts.filter fun a =>
    match a with
    | .cleanup => true
    | _ => false).length

/-! ## The protocol engine -/

/-- One protocol exchange at index `k`: send the frame, read two bytes.
Returns the next exchange index, the recorded sends, and the response
(`none` when the exchange threw). -/
def doExchange (beh : Beh) (k : Nat) (cmd : List JNum) :
    Nat × List Act × Option (Nat × Nat) :=
  match beh k with
  | .sendErr => (k + 1, [], none)
  | .readErr => (k + 1, [Act.send (cmdBytes cmd)], none)
  | .resp a b => (k + 1, [Act.send (cmdBytes cmd)], some (a, b))

/-- The sync loop of `enterProgrammingMode`, verbatim: `syncAttempts`
counts only *thrown* attempts; a readable response that is not
`INSYNC, OK` re-enters the loop without touching the counter.  `fuel`
bounds the number of loop iterations; `none` means the loop was still
running when the fuel ran out.  The `Bool` is `true` on `break` (sync
established) and `false` when the loop threw
`Failed to sync with bootloader`. -/
def syncLoop (beh : Beh) : Nat → Nat → Nat → Option (Nat × List Act × Bool)
  | 0, _, _ => none
  | fuel + 1, k, attempts =>
    if attempts < 10 then
      match doExchange beh k CMD_SYNC with
      | (k', acts, some (b0, b1)) =>
        if b0 = STK_INSYNC ∧ b1 = STK_OK then some (k', acts, true)
        else
          match syncLoop beh fuel k' attempts with
          | none => none
          | some (k2, acts2, r) => some (k2, acts ++ acts2, r)
      | (k', acts, none) =>
        if 10 ≤ attempts + 1 then some (k', acts, false)
        else
          match syncLoop beh fuel k' (attempts + 1) with
          | none => none
          | some (k2, acts2, r) => some (k2, acts ++ acts2, r)
    else some (k, [], true)

/-- `enterProgrammingMode`: connect progress, the sync loop, sync progress,
then the `STK_ENTER_PROGMODE` exchange. -/
def enterProgrammingMode (beh : Beh) (fuel k : Nat) :
    Option (Nat × List Act × Option UErr) :=
  let c : Act := .prog .connecting 10
  match syncLoop beh fuel k 0 with
  | none => none
  | some (k1, sacts, false) => some (k1, c :: sacts, some .syncFail)
  | some (k1, sacts, true) =>
    let s : Act := .prog .syncing 20
    match doExchange beh k1 CMD_ENTER with
    | (k2, eacts, none) => some (k2, c :: (sacts ++ s :: eacts), some .transport)
    | (k2, eacts, some (b0, b1)) =>
      if b0 = STK_INSYNC ∧ b1 = STK_OK then
        some (k2, c :: (sacts ++ s :: eacts), none)
      else
        some (k2, c :: (sacts ++ s :: eacts), some .progMode)

/-- `writePage(address, data)`: the load-address exchange, then the
program-page exchange; a non-OK response to either throws. -/
def writePage (beh : Beh) (k : Nat) (addr : JNum) (data : List JNum) :
    Nat × List Act × Option UErr :=
  match doExchange beh k (loadCmd addr) with
  | (k1, a1, none) => (k1, a1, some .transport)
  | (k1, a1, some (b0, b1)) =>
    if b0 = STK_INSYNC ∧ b1 = STK_OK then
      match doExchange beh k1 (pageCmd data) with
      | (k2, a2, none) => (k2, a1 ++ a2, some .transport)
      | (k2, a2, some (c0, c1)) =>
        if c0 = STK_INSYNC ∧ c1 = STK_OK then (k2, a1 ++ a2, none)
        else (k2, a1 ++ a2, some (.pageWrite addr))
    else (k1, a1, some (.setAddr addr))

/-- The per-line progress snapshot: `30 + (i / hexLines.length) * 50`. -/
def lineProg (n i : Nat) : ℚ := 30 + ((i : ℚ) / (n : ℚ)) * 50

/-- The `for` loop of `uploadHexData` over the filtered lines: each line
first emits its progress snapshot, then is either skipped or written. -/
def uploadLines (beh : Beh) (n : Nat) :
    List (List Char) → Nat → Nat → Nat × List Act × Option UErr
  | [], _, k => (k, [], none)
  | l :: rest, i, k =>
    let pAct : Act := .prog .uploading (lineProg n i)
    match processLine l with
    | none =>
      match uploadLines beh n rest (i + 1) k with
      | (k', acts, e) => (k', pAct :: acts, e)
    | some (addr, data) =>
      match writePage beh k addr data with
      | (k1, wacts, some e) => (k1, pAct :: wacts, some e)
      | (k1, wacts, none) =>
        match uploadLines beh n rest (i + 1) k1 with
        | (k', acts, e) => (k', pAct :: (wacts ++ acts), e)

/-- `uploadHexData`: the 30% snapshot, then the line loop. -/
def uploadHexData (beh : Beh) (text : List Char) (k : Nat) :
    Nat × List Act × Option UErr :=
  let ls := hexLines text
  match uploadLines beh ls.length ls 0 k with
  | (k', acts, e) => (k', Act.prog .uploading 30 :: acts, e)

/-- `verifyUpload` emits two snapshots and cannot fail. -/
def verifyActs : List Act := [.prog .verifying 85, .prog .verifying 95]

/-- `leaveProgrammingMode`: one exchange; non-OK throws. -/
def leaveProgrammingMode (beh : Beh) (k : Nat) :
    Nat × List Act × Option UErr :=
  match doExchange beh k CMD_LEAVE with
  | (k1, a1, none) => (k1, a1, some .transport)
  | (k1, a1, some (b0, b1)) =>
    if b0 = STK_INSYNC ∧ b1 = STK_OK then (k1, a1, none)
    else (k1, a1, some .leaveFail)

/-- `uploadSketch`: the `try` sequence; on any thrown error the `catch`
block emits the error snapshot at progress 0 and returns `false`; the
`finally` block runs `cleanup` on every path.  `none` = the sync loop was
still running when `fuel` ran out. -/
def uploadSketch (text : List Char) (beh : Beh) (fuel : Nat) : Option Run :=
  match enterProgrammingMode beh fuel 0 with
  | none => none
  | some (_, a1, some e) =>
    some ⟨a1 ++ [Act.prog .error 0, Act.cleanup], false, some e⟩
  | some (k1, a1, none) =>
    match uploadHexData beh text k1 with
    | (_, a2, some e) =>
      some ⟨a1 ++ a2 ++ [Act.prog .error 0, Act.cleanup], false, some e⟩
    | (k2, a2, none) =>
      match leaveProgrammingMode beh k2 with
      | (_, a4, some e) =>
        some ⟨a1 ++ a2 ++ verifyActs ++ a4 ++ [Act.prog .error 0, Act.cleanup],
              false, some e⟩
      | (_, a4, none) =>
        some ⟨a1 ++ a2 ++ verifyActs ++ a4 ++ [Act.prog .complete 100, Act.cleanup],
              true, none⟩

/-- A transport that answers every exchange with `INSYNC, OK`. -/
def behAllOk : Beh := fun _ => .resp STK_INSYNC STK_OK

def obsRun (r : Run) : List (List Nat) × Bool × Option UErr :=
  (sendsOf r.acts, r.ok, r.err)

/-! ## Chunk-level `readResponse` (for the response-read claims) -/

/-- One event seen by `reader.read()`: a byte chunk arriving at a given
clock value, or stream end (`done`). -/
inductive ReadEv
  | chunk (bytes : List Nat)
  | done
deriving DecidableEq, Repr

/-- The inner `for (const byte of data)` loop: push bytes one at a time,
stopping as soon as the accumulated response reaches `n` bytes. -/
def pushBytes (n : Nat) : List Nat → List Nat → List Nat
  | acc, [] => acc
  | acc, b :: rest =>
    let acc2 := acc ++ [b]
    if n ≤ acc2.length then acc2 else pushBytes n acc2 rest

/-- `readResponse(expectedLength)` over a timed event stream.  Each loop
iteration samples the clock (`t`) for the `Date.now() < timeout` test and
then performs one `reader.read()`.  `none` means the model ran out of
events while the loop would still be waiting.  `Except.error m` is the
thrown timeout error, carrying the partial byte count `m` that its message
interpolates. -/
def readResponseLoop (expected : Nat) (deadline : Int) :
    List Nat → List (Int × ReadEv) → Option (Except Nat (List Nat))
  | acc, evs =>
    if expected ≤ acc.length then some (.ok acc)
    else
      match evs with
      | [] => none
      | (t, ev) :: rest =>
        if t < deadline then
          match ev with
          | .done => some (.error acc.length)
          | .chunk bs => readResponseLoop expected deadline (pushBytes expected acc bs) rest
        else some (.error acc.length)

/-- `readResponse` as called by the protocol engine: a fresh accumulator
and the fixed `Date.now() + 5000` deadline. -/
def readResponse (expected : Nat) (start : Int) (evs : List (Int × ReadEv)) :
    Option (Except Nat (List Nat)) :=
  readResponseLoop expected (start + 5000) [] evs

/-! ## Helper lemmas about `readResponse` -/

lemma pushBytes_length_le (n : Nat) :
    ∀ bs acc, acc.length < n → (pushBytes n acc bs).length ≤ n := by
  intro bs
  induction bs with
  | nil => intro acc h; simpa [pushBytes] using Nat.le_of_lt h
  | cons b rest ih =>
    intro acc h
    simp only [pushBytes]
    split
    · next hle =>
      have : (acc ++ [b]).length = acc.length + 1 := by simp
      omega
    · next hlt =>
      exact ih (acc ++ [b]) (by simp at hlt ⊢; omega)

lemma readResponseLoop_cases (expected : Nat) (d : Int) :
    ∀ (evs : List (Int × ReadEv)) (acc : List Nat), acc.length ≤ expected →
    ∀ res, readResponseLoop expected d acc evs = some res →
      (∃ bs, res = .ok bs ∧ bs.length = expected) ∨
      (∃ m, res = .error m ∧ m < expected ∧
        ∃ p ∈ evs, p.2 = ReadEv.done ∨ d ≤ p.1) := by
  intro evs
  induction evs with
  | nil =>
    intro acc hacc res h
    simp only [readResponseLoop] at h
    split at h
    · next hge =>
      left
      exact ⟨acc, by simpa using h.symm, Nat.le_antisymm hacc hge⟩
    · exact absurd h (by simp)
  | cons p rest ih =>
    intro acc hacc res h
    obtain ⟨t, ev⟩ := p
    simp only [readResponseLoop] at h
    split at h
    · next hge =>
      left
      exact ⟨acc, by simpa using h.symm, Nat.le_antisymm hacc hge⟩
    · next hlt =>
      split at h
      · next htd =>
        cases ev with
        | done =>
          right
          refine ⟨acc.length, by simpa using h.symm, by omega, ⟨(t, .done), by simp, Or.inl rfl⟩⟩
        | chunk bs =>
          have hlen : (pushBytes expected acc bs).length ≤ expected :=
            pushBytes_length_le expected bs acc (by omega)
          rcases ih (pushBytes expected acc bs) hlen res h with hok | ⟨m, hm, hmlt, q, hq, hqor⟩
          · exact Or.inl hok
          · exact Or.inr ⟨m, hm, hmlt, q, List.mem_cons_of_mem _ hq, hqor⟩
      · next htd =>
        right
        refine ⟨acc.length, by simpa using h.symm, by omega,
          ⟨(t, ev), by simp, Or.inr (by omega)⟩⟩

/-- C7.  Every protocol response read either returns exactly the expected
2 bytes, or throws the timeout error carrying the partial byte count it
actually accumulated (`m < 2`), and it only throws when the stream ended
(`done`) or some loop check observed a clock value at or past the fixed
`start + 5000` ms deadline. -/
theorem readResponse_exact_or_timeout (start : Int) (evs : List (Int × ReadEv))
    (res : Except Nat (List Nat)) (h : readResponse 2 start evs = some res) :
    (∃ bs, res = .ok bs ∧ bs.length = 2) ∨
    (∃ m, res = .error m ∧ m < 2 ∧
      ∃ p ∈ evs, p.2 = ReadEv.done ∨ start + 5000 ≤ p.1) :=
  readResponseLoop_cases 2 (start + 5000) evs [] (by simp) res h

/-- Witness for C7: a stream delivering `INSYNC, OK` in one chunk inside
the deadline yields exactly the two expected bytes. -/
theorem readResponse_exact_or_timeout_witness :
    (∃ bs, (Except.ok [20, 16] : Except Nat (List Nat)) = .ok bs ∧ bs.length = 2) ∨
    (∃ m, (Except.ok [20, 16] : Except Nat (List Nat)) = .error m ∧ m < 2 ∧
      ∃ p ∈ [((1 : Int), ReadEv.chunk [20, 16])], p.2 = ReadEv.done ∨ (0 : Int) + 5000 ≤ p.1) :=
  readResponse_exact_or_timeout 0 [(1, ReadEv.chunk [20, 16])] (Except.ok [20, 16]) rfl

/-! ## C9: non-data and zero-length records are skipped silently -/

lemma processLine_none_of_skip (l : List Char)
    (h : recType l ≠ some 0 ∨ jsPos (recLen l) = false) : processLine l = none := by
  unfold processLine
  split
  · rfl
  · rw [if_neg]
    rintro ⟨h0, hpos⟩
    rcases h with h | h
    · exact h h0
    · rw [h] at hpos; exact Bool.false_ne_true hpos

/-- C9.  A record of non-data type, or a data record whose declared byte
count is zero (or unparseable), contributes exactly its progress snapshot
to the run: no load-address command, no page-write command, no error, and
the line loop continues with the remaining lines unchanged. -/
theorem nondata_or_empty_record_skipped (beh : Beh) (n : Nat) (l : List Char)
    (rest : List (List Char)) (i k : Nat)
    (h : recType l ≠ some 0 ∨ jsPos (recLen l) = false) :
    uploadLines beh n (l :: rest) i k =
      ((uploadLines beh n rest (i + 1) k).1,
       Act.prog .uploading (lineProg n i) :: (uploadLines beh n rest (i + 1) k).2.1,
       (uploadLines beh n rest (i + 1) k).2.2) := by
  rw [uploadLines, processLine_none_of_skip l h]

/-- Witness for C9: the end-of-file record `:00000001FF` (type 1, count 0)
is skipped silently. -/
theorem nondata_or_empty_record_skipped_witness :
    uploadLines behAllOk 1 [[':', '0', '0', '0', '0', '0', '0', '0', '1', 'F', 'F']] 0 0 =
      ((uploadLines behAllOk 1 [] (0 + 1) 0).1,
       Act.prog .uploading (lineProg 1 0) :: (uploadLines behAllOk 1 [] (0 + 1) 0).2.1,
       (uploadLines behAllOk 1 [] (0 + 1) 0).2.2) :=
  nondata_or_empty_record_skipped behAllOk 1 _ [] 0 0 (Or.inl (by decide))

/-! ## Act-shape helpers -/

def isSend : Act → Bool
  | .send _ => true
  | _ => false

def uploadActOk : Act → Bool
  | .send _ => true
  | .prog .uploading _ => true
  | _ => false

lemma cleanupCount_append (l1 l2 : List Act) :
    cleanupCount (l1 ++ l2) = cleanupCount l1 + cleanupCount l2 := by
  simp [cleanupCount, List.filter_append]

lemma errProgsOf_append (l1 l2 : List Act) :
    errProgsOf (l1 ++ l2) = errProgsOf l1 ++ errProgsOf l2 := by
  simp [errProgsOf, List.filterMap_append]

lemma progsOf_append (l1 l2 : List Act) :
    progsOf (l1 ++ l2) = progsOf l1 ++ progsOf l2 := by
  simp [progsOf, List.filterMap_append]

lemma sendsOf_append (l1 l2 : List Act) :
    sendsOf (l1 ++ l2) = sendsOf l1 ++ sendsOf l2 := by
  simp [sendsOf, List.filterMap_append]

lemma cleanupCount_eq_zero {acts : List Act} (h : ∀ a ∈ acts, a ≠ Act.cleanup) :
    cleanupCount acts = 0 := by
  induction acts with
  | nil => rfl
  | cons a rest ih =>
    have ha := h a (List.mem_cons_self a rest)
    have hr := ih fun x hx => h x (List.mem_cons_of_mem _ hx)
    cases a with
    | cleanup => exact absurd rfl ha
    | prog s p => simpa [cleanupCount, List.filter_cons] using hr
    | send bs => simpa [cleanupCount, List.filter_cons] using hr

lemma errProgsOf_eq_nil {acts : List Act}
    (h : ∀ a ∈ acts, ∀ p, a ≠ Act.prog .error p) : errProgsOf acts = [] := by
  induction acts with
  | nil => rfl
  | cons a rest ih =>
    have hr := ih fun x hx => h x (List.mem_cons_of_mem _ hx)
    cases a with
    | cleanup => simpa [errProgsOf, List.filterMap_cons] using hr
    | send bs => simpa [errProgsOf, List.filterMap_cons] using hr
    | prog s p =>
      cases s <;> simp [errProgsOf, List.filterMap_cons] at hr ⊢ <;>
        first
          | exact hr
          | exact absurd rfl (h (Act.prog .error p) (List.mem_cons_self _ _) p)

lemma progsOf_eq_nil_of_all_isSend {acts : List Act} (h : acts.all isSend = true) :
    progsOf acts = [] := by
  induction acts with
  | nil => rfl
  | cons a rest ih =>
    rw [List.all_cons, Bool.and_eq_true] at h
    cases a with
    | prog s p => simp [isSend] at h
    | cleanup => simp [isSend] at h
    | send bs => simpa [progsOf, List.filterMap_cons] using ih h.2

lemma not_cleanup_of_isSend {a : Act} (h : isSend a = true) : a ≠ Act.cleanup := by
  cases a <;> simp [isSend] at h ⊢

lemma not_errProg_of_isSend {a : Act} (h : isSend a = true) :
    ∀ p, a ≠ Act.prog .error p := by
  cases a <;> simp [isSend] at h ⊢

lemma not_cleanup_of_uploadActOk {a : Act} (h : uploadActOk a = true) : a ≠ Act.cleanup := by
  cases a <;> simp [uploadActOk] at h ⊢

lemma not_errProg_of_uploadActOk {a : Act} (h : uploadActOk a = true) :
    ∀ p, a ≠ Act.prog .error p := by
  cases a with
  | prog s p => cases s <;> simp [uploadActOk] at h ⊢
  | send bs => simp
  | cleanup => simp [uploadActOk] at h

/-! ## Per-phase act characterizations -/

lemma doExchange_acts_all (beh : Beh) (k : Nat) (c : List JNum) :
    ((doExchange beh k c).2.1).all isSend = true := by
  cases h : beh k <;> simp [doExchange, h, isSend]

lemma syncLoop_acts_all (beh : Beh) :
    ∀ fuel k att r, syncLoop beh fuel k att = some r → (r.2.1).all isSend = true := by
  intro fuel
  induction fuel with
  | zero => intro k att r h; exact absurd h (by simp [syncLoop])
  | succ f ih =>
    intro k att r h
    rw [syncLoop] at h
    split at h
    · split at h
      · next k1 acts1 b0 b1 heq =>
        have ha1 : acts1.all isSend = true := by
          have := doExchange_acts_all beh k CMD_SYNC
          rw [heq] at this
          exact this
        split at h
        · cases h
          simpa using ha1
        · split at h
          · exact absurd h (by simp)
          · next k2 acts2 rr heq2 =>
            cases h
            have ha2 := ih k1 att _ heq2
            simp only [List.all_append, Bool.and_eq_true]
            exact ⟨ha1, ha2⟩
      · next k1 acts1 heq =>
        have ha1 : acts1.all isSend = true := by
          have := doExchange_acts_all beh k CMD_SYNC
          rw [heq] at this
          exact this
        split at h
        · cases h
          simpa using ha1
        · split at h
          · exact absurd h (by simp)
          · next k2 acts2 rr heq2 =>
            cases h
            have ha2 := ih k1 (att + 1) _ heq2
            simp only [List.all_append, Bool.and_eq_true]
            exact ⟨ha1, ha2⟩
    · cases h
      simp


lemma all_isSend_of_eq_doExchange {beh : Beh} {k : Nat} {c : List JNum}
    {k1 : Nat} {a1 : List Act} {r : Option (Nat × Nat)}
    (h : doExchange beh k c = (k1, a1, r)) : a1.all isSend = true := by
  have := doExchange_acts_all beh k c
  rw [h] at this
  exact this

lemma writePage_acts_all (beh : Beh) (k : Nat) (addr : JNum) (data : List JNum) :
    ((writePage beh k addr data).2.1).all isSend = true := by
  unfold writePage
  split
  · next k1 a1 heq => simpa using all_isSend_of_eq_doExchange heq
  · next k1 a1 b0 b1 heq =>
    have ha1 := all_isSend_of_eq_doExchange heq
    split
    · split
      · next k2 a2 heq2 =>
        have ha2 := all_isSend_of_eq_doExchange heq2
        simp [List.all_append, ha1, ha2]
      · next k2 a2 c0 c1 heq2 =>
        have ha2 := all_isSend_of_eq_doExchange heq2
        split <;> simp [List.all_append, ha1, ha2]
    · simpa using ha1

lemma leave_acts_all (beh : Beh) (k : Nat) :
    ((leaveProgrammingMode beh k).2.1).all isSend = true := by
  unfold leaveProgrammingMode
  split
  · next k1 a1 heq => simpa using all_isSend_of_eq_doExchange heq
  · next k1 a1 b0 b1 heq =>
    have ha1 := all_isSend_of_eq_doExchange heq
    split <;> simpa using ha1

lemma uploadLines_acts_all (beh : Beh) (n : Nat) :
    ∀ ls i k, ((uploadLines beh n ls i k).2.1).all uploadActOk = true := by
  intro ls
  induction ls with
  | nil => intro i k; simp [uploadLines]
  | cons l rest ih =>
    intro i k
    rw [uploadLines]
    split
    · next heq =>
      split
      · next k' acts e heq2 =>
        have := ih (i + 1) k
        rw [heq2] at this
        simpa [uploadActOk] using this
    · next addr data heq =>
      split
      · next k1 wacts e heq2 =>
        have hws : wacts.all isSend = true := by
          have := writePage_acts_all beh k addr data
          rw [heq2] at this
          exact this
        have hwu : wacts.all uploadActOk = true := by
          rw [List.all_eq_true] at hws ⊢
          intro a ha
          have h2 := hws a ha
          cases a <;> simp [isSend] at h2
          simp [uploadActOk]
        simpa [uploadActOk] using hwu
      · next k1 wacts heq2 =>
        have hws : wacts.all isSend = true := by
          have := writePage_acts_all beh k addr data
          rw [heq2] at this
          exact this
        have hwu : wacts.all uploadActOk = true := by
          rw [List.all_eq_true] at hws ⊢
          intro a ha
          have h2 := hws a ha
          cases a <;> simp [isSend] at h2
          simp [uploadActOk]
        have hrest := ih (i + 1) k1
        simp only [List.all_cons, List.all_append, Bool.and_eq_true]
        exact ⟨by simp [uploadActOk], hwu, hrest⟩

lemma clean_of_all_isSend {acts : List Act} (h : acts.all isSend = true) :
    cleanupCount acts = 0 ∧ errProgsOf acts = [] := by
  rw [List.all_eq_true] at h
  exact ⟨cleanupCount_eq_zero fun a ha => not_cleanup_of_isSend (h a ha),
         errProgsOf_eq_nil fun a ha => not_errProg_of_isSend (h a ha)⟩

lemma cleanupCount_cons_prog (s : Stage) (p : ℚ) (rest : List Act) :
    cleanupCount (Act.prog s p :: rest) = cleanupCount rest := by
  simp [cleanupCount, List.filter_cons]

lemma errProgsOf_cons_nonerror {s : Stage} (p : ℚ) (rest : List Act)
    (h : s ≠ Stage.error) :
    errProgsOf (Act.prog s p :: rest) = errProgsOf rest := by
  cases s
  case error => exact absurd rfl h
  all_goals simp [errProgsOf, List.filterMap_cons]

lemma errProgsOf_cons_error (p : ℚ) (rest : List Act) :
    errProgsOf (Act.prog .error p :: rest) = p :: errProgsOf rest := by
  simp [errProgsOf, List.filterMap_cons]

lemma enter_acts_clean (beh : Beh) (fuel k : Nat) (k1 : Nat) (acts : List Act)
    (e : Option UErr) (h : enterProgrammingMode beh fuel k = some (k1, acts, e)) :
    cleanupCount acts = 0 ∧ errProgsOf acts = [] := by
  unfold enterProgrammingMode at h
  split at h
  · exact absurd h (by simp)
  · next k2 sacts heq =>
    cases h
    obtain ⟨hc, he⟩ := clean_of_all_isSend (syncLoop_acts_all beh fuel k 0 _ heq)
    exact ⟨by rw [cleanupCount_cons_prog, hc],
           by rw [errProgsOf_cons_nonerror _ _ (by simp), he]⟩
  · next k2 sacts heq =>
    obtain ⟨hsc, hse⟩ := clean_of_all_isSend (syncLoop_acts_all beh fuel k 0 _ heq)
    have hmain : ∀ eacts : List Act, eacts.all isSend = true →
        cleanupCount (Act.prog .connecting 10 :: (sacts ++ Act.prog .syncing 20 :: eacts)) = 0 ∧
        errProgsOf (Act.prog .connecting 10 :: (sacts ++ Act.prog .syncing 20 :: eacts)) = [] := by
      intro eacts hall
      obtain ⟨hec, hee⟩ := clean_of_all_isSend hall
      constructor
      · rw [cleanupCount_cons_prog, cleanupCount_append, cleanupCount_cons_prog, hsc, hec]
      · rw [errProgsOf_cons_nonerror _ _ (by simp), errProgsOf_append,
          errProgsOf_cons_nonerror _ _ (by simp), hse, hee]
        rfl
    split at h
    · next k3 eacts heq2 =>
      cases h
      exact hmain eacts (all_isSend_of_eq_doExchange heq2)
    · next k3 eacts b0 b1 heq2 =>
      split at h <;> cases h <;> exact hmain eacts (all_isSend_of_eq_doExchange heq2)

lemma uploadHexData_acts_clean (beh : Beh) (text : List Char) (k k' : Nat)
    (acts : List Act) (e : Option UErr) (h : uploadHexData beh text k = (k', acts, e)) :
    cleanupCount acts = 0 ∧ errProgsOf acts = [] := by
  unfold uploadHexData at h
  dsimp only [] at h
  have hacts : acts =
      Act.prog Stage.uploading 30 ::
        (uploadLines beh (hexLines text).length (hexLines text) 0 k).2.1 := by
    have h2 := congrArg (fun p => p.2.1) h
    simpa using h2.symm
  subst hacts
  have hall := uploadLines_acts_all beh (hexLines text).length (hexLines text) 0 k
  rw [List.all_eq_true] at hall
  constructor
  · rw [cleanupCount_cons_prog]
    exact cleanupCount_eq_zero fun a ha => not_cleanup_of_uploadActOk (hall a ha)
  · rw [errProgsOf_cons_nonerror _ _ (by simp)]
    exact errProgsOf_eq_nil fun a ha => not_errProg_of_uploadActOk (hall a ha)

lemma leave_acts_clean (beh : Beh) (k : Nat) :
    cleanupCount (leaveProgrammingMode beh k).2.1 = 0 ∧
    errProgsOf (leaveProgrammingMode beh k).2.1 = [] :=
  clean_of_all_isSend (leave_acts_all beh k)

/-- Structure of every terminating run: a prefix of benign phase actions
(no cleanup, no error-stage snapshot), then either the complete snapshot
or the error snapshot at progress 0, then exactly one cleanup. -/
lemma uploadSketch_shape (text : List Char) (beh : Beh) (fuel : Nat) (r : Run)
    (h : uploadSketch text beh fuel = some r) :
    ∃ pre : List Act, cleanupCount pre = 0 ∧ errProgsOf pre = [] ∧
      ((r.ok = true ∧ r.err = none ∧
          r.acts = pre ++ [Act.prog .complete 100, Act.cleanup]) ∨
       (r.ok = false ∧ (∃ e, r.err = some e) ∧
          r.acts = pre ++ [Act.prog .error 0, Act.cleanup])) := by
  unfold uploadSketch at h
  split at h
  · exact absurd h (by simp)
  · next k1 a1 e heq =>
    cases h
    obtain ⟨hc, he⟩ := enter_acts_clean beh fuel 0 k1 a1 (some e) heq
    exact ⟨a1, hc, he, Or.inr ⟨rfl, ⟨e, rfl⟩, rfl⟩⟩
  · next k1 a1 heq =>
    obtain ⟨hc1, he1⟩ := enter_acts_clean beh fuel 0 k1 a1 none heq
    split at h
    · next k2 a2 e heq2 =>
      cases h
      obtain ⟨hc2, he2⟩ := uploadHexData_acts_clean beh text k1 k2 a2 (some e) heq2
      refine ⟨a1 ++ a2, ?_, ?_, Or.inr ⟨rfl, ⟨e, rfl⟩, by simp⟩⟩
      · rw [cleanupCount_append, hc1, hc2]
      · rw [errProgsOf_append, he1, he2]; rfl
    · next k2 a2 heq2 =>
      obtain ⟨hc2, he2⟩ := uploadHexData_acts_clean beh text k1 k2 a2 none heq2
      split at h
      · next k4 a4 e heq4 =>
        cases h
        have hl := leave_acts_clean beh k2
        rw [heq4] at hl
        refine ⟨a1 ++ a2 ++ verifyActs ++ a4, ?_, ?_, Or.inr ⟨rfl, ⟨e, rfl⟩, by simp⟩⟩
        · rw [cleanupCount_append, cleanupCount_append, cleanupCount_append,
            hc1, hc2, hl.1]
          rfl
        · rw [errProgsOf_append, errProgsOf_append, errProgsOf_append,
            he1, he2, hl.2]
          rfl
      · next k4 a4 heq4 =>
        cases h
        have hl := leave_acts_clean beh k2
        rw [heq4] at hl
        refine ⟨a1 ++ a2 ++ verifyActs ++ a4, ?_, ?_, Or.inl ⟨rfl, rfl, by simp⟩⟩
        · rw [cleanupCount_append, cleanupCount_append, cleanupCount_append,
            hc1, hc2, hl.1]
          rfl
        · rw [errProgsOf_append, errProgsOf_append, errProgsOf_append,
            he1, he2, hl.2]
          rfl

/-- C1.  On every terminating run of `uploadSketch` — success or any
failure (sync, programming-mode entry, page write, leave-program-mode,
transport) — the `finally` cleanup that releases the reader/writer handles
runs exactly once: never zero times and never twice. -/
theorem upload_cleanup_exactly_once (text : List Char) (beh : Beh) (fuel : Nat)
    (r : Run) (h : uploadSketch text beh fuel = some r) :
    cleanupCount r.acts = 1 := by
  obtain ⟨pre, hc, _, hcase⟩ := uploadSketch_shape text beh fuel r h
  rcases hcase with ⟨_, _, hacts⟩ | ⟨_, _, hacts⟩ <;>
    rw [hacts, cleanupCount_append, hc] <;> rfl

/-- Witness for C1: a successful run over a one-record hex input releases
the transport exactly once. -/
theorem upload_cleanup_exactly_once_witness :
    cleanupCount ((uploadSketch
      [':', '0', '0', '0', '0', '0', '0', '0', '1', 'F', 'F'] behAllOk 5).getD
        ⟨[], false, none⟩).acts = 1 :=
  upload_cleanup_exactly_once [':', '0', '0', '0', '0', '0', '0', '0', '1', 'F', 'F']
    behAllOk 5 _ (by rfl)

/-- C10.  `uploadSketch` never propagates an exception: every terminating
run returns a `Bool`; it returns `true` exactly when no step threw, and on
every failure path the single error-stage snapshot it emits carries
progress 0 (whatever percentages earlier snapshots reported). -/
theorem upload_bool_result_error_snapshot_zero (text : List Char) (beh : Beh)
    (fuel : Nat) (r : Run) (h : uploadSketch text beh fuel = some r) :
    (r.ok = true ∧ r.err = none ∧ errProgsOf r.acts = []) ∨
    (r.ok = false ∧ (∃ e, r.err = some e) ∧ errProgsOf r.acts = [0]) := by
  obtain ⟨pre, _, he, hcase⟩ := uploadSketch_shape text beh fuel r h
  rcases hcase with ⟨hok, herr, hacts⟩ | ⟨hok, herr, hacts⟩
  · refine Or.inl ⟨hok, herr, ?_⟩
    rw [hacts, errProgsOf_append, he]
    rfl
  · refine Or.inr ⟨hok, herr, ?_⟩
    rw [hacts, errProgsOf_append, he]
    rfl

/-- Witness for C10: a run whose transport never answers fails the sync
stage, returns `false`, and emits the single error snapshot at progress 0
(after the connecting snapshot at 10). -/
theorem upload_bool_result_error_snapshot_zero_witness :
    (((uploadSketch [] (fun _ => Outcome.readErr) 25).getD ⟨[], false, none⟩).ok = true ∧
       ((uploadSketch [] (fun _ => Outcome.readErr) 25).getD ⟨[], false, none⟩).err = none ∧
       errProgsOf ((uploadSketch [] (fun _ => Outcome.readErr) 25).getD ⟨[], false, none⟩).acts = []) ∨
    (((uploadSketch [] (fun _ => Outcome.readErr) 25).getD ⟨[], false, none⟩).ok = false ∧
       (∃ e, ((uploadSketch [] (fun _ => Outcome.readErr) 25).getD ⟨[], false, none⟩).err = some e) ∧
       errProgsOf ((uploadSketch [] (fun _ => Outcome.readErr) 25).getD ⟨[], false, none⟩).acts = [0]) :=
  upload_bool_result_error_snapshot_zero [] (fun _ => Outcome.readErr) 25 _ (by rfl)

/-! ## C2: the sync retry loop -/

def isRespB : Outcome → Bool
  | .resp _ _ => true
  | _ => false

/-- A transport whose readable 2-byte responses are always `INSYNC, OK`
(failures may only be thrown reads/writes, e.g. timeouts). -/
def goodSyncBeh (beh : Beh) : Prop :=
  ∀ i b0 b1, beh i = .resp b0 b1 → b0 = STK_INSYNC ∧ b1 = STK_OK

/-- C2 counterexample.  The claim quantifies over *every* transport
behavior, but `syncAttempts` is incremented only in the `catch` branch: a
transport that always yields a readable non-in-sync 2-byte response (here
`0x00 0x00`) re-enters the loop without counting an attempt, so the sync
phase is still running after 100 loop iterations — far beyond the claimed
10-attempt bound — and never raises the sync-timeout error. -/
theorem sync_not_bounded_cex :
    syncLoop (fun _ => Outcome.resp 0 0) 100 0 0 = none := by
  rfl

lemma syncLoop_fail_aux (beh : Beh) :
    ∀ m att k fuel, att + m = 10 → 1 ≤ m → m ≤ fuel →
      (∀ j < m, isRespB (beh (k + j)) = false) →
      ∃ acts, syncLoop beh fuel k att = some (k + m, acts, false) := by
  intro m
  induction m with
  | zero => intro att k fuel _ h1; omega
  | succ m ih =>
    intro att k fuel hsum _ hfuel hj
    obtain ⟨f, rfl⟩ : ∃ f, fuel = f + 1 := ⟨fuel - 1, by omega⟩
    rw [syncLoop, if_pos (by omega : att < 10)]
    have h0 : isRespB (beh k) = false := by simpa using hj 0 (by omega)
    rcases o : beh k with _ | _ | ⟨b0, b1⟩
    · simp only [doExchange, o]
      by_cases hm : m = 0
      · subst hm
        rw [if_pos (by omega : 10 ≤ att + 1)]
        exact ⟨[], by rfl⟩
      · rw [if_neg (by omega : ¬ 10 ≤ att + 1)]
        obtain ⟨acts2, h2⟩ := ih (att + 1) (k + 1) f (by omega) (by omega) (by omega)
          (fun j hjm => by
            have := hj (j + 1) (by omega)
            simpa [Nat.add_assoc, Nat.add_comm 1 j] using this)
        rw [h2]
        exact ⟨acts2, by simp [Nat.add_comm m 1, Nat.add_assoc]⟩
    · simp only [doExchange, o]
      by_cases hm : m = 0
      · subst hm
        rw [if_pos (by omega : 10 ≤ att + 1)]
        exact ⟨[Act.send (cmdBytes CMD_SYNC)], by rfl⟩
      · rw [if_neg (by omega : ¬ 10 ≤ att + 1)]
        obtain ⟨acts2, h2⟩ := ih (att + 1) (k + 1) f (by omega) (by omega) (by omega)
          (fun j hjm => by
            have := hj (j + 1) (by omega)
            simpa [Nat.add_assoc, Nat.add_comm 1 j] using this)
        rw [h2]
        exact ⟨Act.send (cmdBytes CMD_SYNC) :: acts2, by simp [Nat.add_comm m 1, Nat.add_assoc]⟩
    · rw [o] at h0
      simp [isRespB] at h0

lemma syncLoop_succ_aux (beh : Beh) (hg : goodSyncBeh beh) :
    ∀ j att k fuel, att < 10 → att + j < 10 → j + 1 ≤ fuel →
      (∀ i < j, isRespB (beh (k + i)) = false) → isRespB (beh (k + j)) = true →
      ∃ acts, syncLoop beh fuel k att = some (k + j + 1, acts, true) := by
  intro j
  induction j with
  | zero =>
    intro att k fuel hatt _ hfuel _ hresp
    obtain ⟨f, rfl⟩ : ∃ f, fuel = f + 1 := ⟨fuel - 1, by omega⟩
    have hresp' : isRespB (beh k) = true := by simpa using hresp
    rcases o : beh k with _ | _ | ⟨b0, b1⟩
    · rw [o] at hresp'; simp [isRespB] at hresp'
    · rw [o] at hresp'; simp [isRespB] at hresp'
    · obtain ⟨rfl, rfl⟩ := hg k b0 b1 o
      rw [syncLoop, if_pos hatt]
      simp only [doExchange, o]
      refine ⟨[Act.send (cmdBytes CMD_SYNC)], ?_⟩
      simp
  | succ j ih =>
    intro att k fuel hatt hsum hfuel hi hresp
    obtain ⟨f, rfl⟩ : ∃ f, fuel = f + 1 := ⟨fuel - 1, by omega⟩
    have h0 : isRespB (beh k) = false := by simpa using hi 0 (by omega)
    rw [syncLoop, if_pos hatt]
    rcases o : beh k with _ | _ | ⟨b0, b1⟩
    · simp only [doExchange, o]
      rw [if_neg (by omega : ¬ 10 ≤ att + 1)]
      obtain ⟨acts2, h2⟩ := ih (att + 1) (k + 1) f (by omega) (by omega) (by omega)
        (fun i hij => by
          have := hi (i + 1) (by omega)
          simpa [Nat.add_assoc, Nat.add_comm 1 i] using this)
        (by simpa [Nat.add_assoc, Nat.add_comm 1 j] using hresp)
      rw [h2]
      exact ⟨acts2, by simp [Nat.add_comm j 1, Nat.add_assoc]⟩
    · simp only [doExchange, o]
      rw [if_neg (by omega : ¬ 10 ≤ att + 1)]
      obtain ⟨acts2, h2⟩ := ih (att + 1) (k + 1) f (by omega) (by omega) (by omega)
        (fun i hij => by
          have := hi (i + 1) (by omega)
          simpa [Nat.add_assoc, Nat.add_comm 1 i] using this)
        (by simpa [Nat.add_assoc, Nat.add_comm 1 j] using hresp)
      rw [h2]
      exact ⟨Act.send (cmdBytes CMD_SYNC) :: acts2, by simp [Nat.add_comm j 1, Nat.add_assoc]⟩
    · rw [o] at h0; simp [isRespB] at h0

/-- C2 amended.  The 10-attempt bound holds only for transports whose
readable responses are always in-sync/OK (so every unsuccessful attempt is
a thrown read, the one case the `catch` counter sees): then sync succeeds
at the first readable attempt `j < 10`, and if the first 10 attempts all
throw, the loop raises the sync-timeout failure after exactly 10 attempts
(the 100 ms inter-attempt backoff is timing, not visible in this
embedding).  A transport that keeps yielding readable non-in-sync
responses makes the loop spin forever (see the counterexample). -/
theorem sync_bounded_amended (beh : Beh) (k fuel : Nat) (hg : goodSyncBeh beh)
    (hf : 11 ≤ fuel) :
    ((∀ j < 10, isRespB (beh (k + j)) = false) →
      (syncLoop beh fuel k 0).map (fun r => (r.1, r.2.2)) = some (k + 10, false))
  ∧ (∀ j, j < 10 → (∀ i < j, isRespB (beh (k + i)) = false) →
      isRespB (beh (k + j)) = true →
      (syncLoop beh fuel k 0).map (fun r => (r.1, r.2.2)) = some (k + j + 1, true)) := by
  constructor
  · intro hall
    obtain ⟨acts, h⟩ := syncLoop_fail_aux beh 10 0 k fuel (by omega) (by omega) (by omega) hall
    rw [h]
    rfl
  · intro j hj hi hresp
    obtain ⟨acts, h⟩ :=
      syncLoop_succ_aux beh hg j 0 k fuel (by omega) (by omega) (by omega) hi hresp
    rw [h]
    rfl

/-- Witness for the amended C2: a transport that throws on its first three
attempts and is in-sync from the fourth onward syncs successfully at
attempt 4. -/
theorem sync_bounded_amended_witness :
    (syncLoop (fun i => if i < 3 then Outcome.readErr else Outcome.resp STK_INSYNC STK_OK)
        20 0 0).map (fun r => (r.1, r.2.2)) = some (4, true) :=
  (sync_bounded_amended (fun i => if i < 3 then Outcome.readErr else Outcome.resp STK_INSYNC STK_OK)
    0 20
    (fun i b0 b1 h => by
      dsimp only at h
      by_cases hi : i < 3
      · rw [if_pos hi] at h; exact absurd h (by simp)
      · rw [if_neg hi] at h
        injection h with h0 h1
        exact ⟨h0.symm, h1.symm⟩)
    (by omega)).2 3 (by omega) (by decide) (by decide)

/-! ## C3: malformed hex records are not rejected -/

/-- C3 counterexample.  The line `:02000000AB` declares 2 payload bytes
but carries only one (`AB`); the claim says the upload must fail with
`MalformedRecord` before any page-write bytes of that record are sent.
Instead the run performs no validation: it sends the load-address frame
and the page-write frame `[0x64, 0, 2, 0x46, 0xAB, 0x00, 0x20]` — the
missing byte parses as `NaN` and is transmitted as `0x00` — and the upload
terminates successfully with no error of any kind. -/
theorem hex_malformed_not_rejected_cex :
    (uploadSketch [':', '0', '2', '0', '0', '0', '0', '0', '0', 'A', 'B']
        behAllOk 30).map obsRun =
      some ([[48, 32], [80, 32], [85, 0, 0, 32], [100, 0, 2, 70, 171, 0, 32], [81, 32]],
            true, none) := by
  rfl

lemma syncLoop_allOk (f k : Nat) :
    syncLoop behAllOk (f + 1) k 0 = some (k + 1, [Act.send (cmdBytes CMD_SYNC)], true) := by
  rw [syncLoop, if_pos (by omega : (0 : Nat) < 10)]
  simp [doExchange, behAllOk]

lemma enterProg_allOk (f k : Nat) :
    enterProgrammingMode behAllOk (f + 1) k =
      some (k + 2, [Act.prog .connecting 10, Act.send (cmdBytes CMD_SYNC),
        Act.prog .syncing 20, Act.send (cmdBytes CMD_ENTER)], none) := by
  unfold enterProgrammingMode
  rw [syncLoop_allOk]
  simp [doExchange, behAllOk]

lemma writePage_allOk (k : Nat) (addr : JNum) (data : List JNum) :
    writePage behAllOk k addr data =
      (k + 2, [Act.send (cmdBytes (loadCmd addr)), Act.send (cmdBytes (pageCmd data))],
       none) := by
  unfold writePage
  simp [doExchange, behAllOk]

lemma leave_allOk (k : Nat) :
    leaveProgrammingMode behAllOk k = (k + 1, [Act.send (cmdBytes CMD_LEAVE)], none) := by
  unfold leaveProgrammingMode
  simp [doExchange, behAllOk]

lemma uploadHexData_eq (beh : Beh) (text : List Char) (k : Nat) :
    uploadHexData beh text k =
      ((uploadLines beh (hexLines text).length (hexLines text) 0 k).1,
       Act.prog .uploading 30 :: (uploadLines beh (hexLines text).length (hexLines text) 0 k).2.1,
       (uploadLines beh (hexLines text).length (hexLines text) 0 k).2.2) := rfl

lemma uploadLines_allOk_err (n : Nat) :
    ∀ ls i k, (uploadLines behAllOk n ls i k).2.2 = none := by
  intro ls
  induction ls with
  | nil => intro i k; simp [uploadLines]
  | cons l rest ih =>
    intro i k
    rw [uploadLines]
    cases hp : processLine l with
    | none => exact ih (i + 1) k
    | some ad =>
      obtain ⟨addr, data⟩ := ad
      simp only [writePage_allOk]
      exact ih (i + 1) (k + 2)

/-- C3 amended.  The upload performs no hex validation at all: for every
input text — including lines with invalid hex digits or byte counts that
do not match the payload actually present — no parse error is ever raised;
unparseable payload positions become `NaN` and are transmitted as `0x00`,
and with a transport that acknowledges every exchange the whole upload
succeeds. -/
theorem upload_never_rejects_hex (text : List Char) (fuel : Nat) (hf : 1 ≤ fuel) :
    (uploadSketch text behAllOk fuel).map (fun r => (r.ok, r.err)) = some (true, none) := by
  obtain ⟨f, rfl⟩ : ∃ f, fuel = f + 1 := ⟨fuel - 1, by omega⟩
  unfold uploadSketch
  rw [enterProg_allOk]
  simp only [uploadHexData_eq, uploadLines_allOk_err, leave_allOk]
  rfl

/-- Witness for the amended C3: the malformed single-record input is
uploaded without any error. -/
theorem upload_never_rejects_hex_witness :
    (uploadSketch [':', '0', '2', '0', '0', 'X', 'Y', '0', '0', 'A']
        behAllOk 5).map (fun r => (r.ok, r.err)) = some (true, none) :=
  upload_never_rejects_hex [':', '0', '2', '0', '0', 'X', 'Y', '0', '0', 'A'] 5 (by omega)

/-! ## C4: the writePage frames -/

lemma jsToU32_natCast (a : Nat) (h : a < 2 ^ 32) : jsToU32 (some (a : Int)) = a := by
  show ((a : Int).emod (2 ^ 32)).toNat = a
  have h2 : (a : Int) % (2 ^ 32) = a :=
    Int.emod_eq_of_lt (by positivity) (by exact_mod_cast h)
  have h3 : (a : Int).emod (2 ^ 32) = (a : Int) := h2
  rw [h3]
  simp

lemma toSigned32_small (a : Nat) (h : a < 2 ^ 31) : toSigned32 a = (a : Int) := by
  unfold toSigned32
  rw [if_pos h]

lemma jsAnd_255 (a : Nat) (h : a < 2 ^ 32) :
    jsAnd (some (a : Int)) (some 255) = ((a % 256 : Nat) : Int) := by
  unfold jsAnd
  have h255 : jsToU32 (some (255 : Int)) = 255 := by
    rw [show ((255 : Int)) = ((255 : Nat) : Int) by norm_num]
    exact jsToU32_natCast 255 (by norm_num)
  rw [jsToU32_natCast a h, h255]
  have hland : Nat.land a 255 = a % 256 := by
    have := Nat.and_pow_two_sub_one_eq_mod a 8
    simpa [HAnd.hAnd, AndOp.and, Nat.land] using this
  rw [hland]
  exact toSigned32_small _ (lt_of_lt_of_le (Nat.mod_lt a (by norm_num)) (by norm_num))

lemma jsShr8 (a : Nat) (h : a < 2 ^ 31) :
    jsShr (some (a : Int)) 8 = ((a / 256 : Nat) : Int) := by
  unfold jsShr jsToI32
  rw [jsToU32_natCast a (lt_trans h (by norm_num)), toSigned32_small a h]
  have h832 : (8 : Nat) % 32 = 8 := by norm_num
  rw [h832]
  rw [Int.fdiv_eq_tdiv (by positivity) (by positivity)]
  rw [show ((2 : Int) ^ 8) = ((256 : Nat) : Int) by norm_num]
  exact_mod_cast (Int.ofNat_tdiv a 256).symm

lemma jsToUint8_small (a : Nat) (h : a < 256) : jsToUint8 (some (a : Int)) = a := by
  show ((a : Int).emod 256).toNat = a
  have h2 : (a : Int) % 256 = a := Int.emod_eq_of_lt (by positivity) (by exact_mod_cast h)
  have h3 : (a : Int).emod 256 = (a : Int) := h2
  rw [h3]
  simp

lemma cmdBytes_loadCmd (a : Nat) (h : a < 2 ^ 16) :
    cmdBytes (loadCmd (some (a : Int))) = [0x55, a % 256, a / 256, 0x20] := by
  unfold cmdBytes loadCmd
  have h1 : jsAnd (some (a : Int)) (some 255) = ((a % 256 : Nat) : Int) :=
    jsAnd_255 a (lt_trans h (by norm_num))
  have h2 : jsShr (some (a : Int)) 8 = ((a / 256 : Nat) : Int) :=
    jsShr8 a (lt_trans h (by norm_num))
  have h3 : jsAnd (some ((a / 256 : Nat) : Int)) (some 255) = (((a / 256) % 256 : Nat) : Int) :=
    jsAnd_255 (a / 256) (by omega)
  have hlt : a / 256 < 256 := Nat.div_lt_of_lt_mul (by omega)
  rw [List.map_cons, List.map_cons, List.map_cons, List.map_cons, List.map_nil,
    h1, h2, h3, Nat.mod_eq_of_lt hlt]
  rw [jsToUint8_small (a % 256) (Nat.mod_lt a (by norm_num)),
    jsToUint8_small (a / 256) hlt]
  rfl

lemma cmdBytes_pageCmd (data : List JNum) (h : data.length < 2 ^ 15) :
    cmdBytes (pageCmd data) =
      [0x64, data.length / 256, data.length % 256, 0x46] ++
        data.map jsToUint8 ++ [0x20] := by
  unfold cmdBytes pageCmd
  have hlen : ((data.length : Int)) = ((data.length : Nat) : Int) := rfl
  have h2 : jsShr (some (data.length : Int)) 8 = ((data.length / 256 : Nat) : Int) :=
    jsShr8 data.length (lt_trans h (by norm_num))
  have h3 : jsAnd (some ((data.length / 256 : Nat) : Int)) (some 255) =
      (((data.length / 256) % 256 : Nat) : Int) := jsAnd_255 (data.length / 256) (by omega)
  have h4 : jsAnd (some (data.length : Int)) (some 255) =
      ((data.length % 256 : Nat) : Int) := jsAnd_255 data.length (lt_trans h (by norm_num))
  have hlt : data.length / 256 < 256 := Nat.div_lt_of_lt_mul (by omega)
  rw [List.map_append, List.map_append]
  rw [List.map_cons, List.map_cons, List.map_cons, List.map_cons, List.map_nil, List.map_cons,
    List.map_nil, h2, h3, h4, Nat.mod_eq_of_lt hlt]
  rw [jsToUint8_small (data.length / 256) hlt,
    jsToUint8_small (data.length % 256) (Nat.mod_lt _ (by norm_num))]
  rfl

lemma writePage_sendErr1 (beh : Beh) (k : Nat) (addr : JNum) (data : List JNum)
    (h : beh k = .sendErr) :
    writePage beh k addr data = (k + 1, [], some .transport) := by
  unfold writePage
  simp [doExchange, h]

lemma writePage_readErr1 (beh : Beh) (k : Nat) (addr : JNum) (data : List JNum)
    (h : beh k = .readErr) :
    writePage beh k addr data =
      (k + 1, [Act.send (cmdBytes (loadCmd addr))], some .transport) := by
  unfold writePage
  simp [doExchange, h]

lemma writePage_addrFail (beh : Beh) (k : Nat) (addr : JNum) (data : List JNum)
    (b0 b1 : Nat) (h : beh k = .resp b0 b1) (hok : ¬(b0 = STK_INSYNC ∧ b1 = STK_OK)) :
    writePage beh k addr data =
      (k + 1, [Act.send (cmdBytes (loadCmd addr))], some (.setAddr addr)) := by
  unfold writePage
  simp only [doExchange, h]
  rw [if_neg hok]

lemma writePage_sendErr2 (beh : Beh) (k : Nat) (addr : JNum) (data : List JNum)
    (h1 : beh k = .resp STK_INSYNC STK_OK) (h2 : beh (k + 1) = .sendErr) :
    writePage beh k addr data =
      (k + 2, [Act.send (cmdBytes (loadCmd addr))], some .transport) := by
  unfold writePage
  simp [doExchange, h1, h2]

lemma writePage_readErr2 (beh : Beh) (k : Nat) (addr : JNum) (data : List JNum)
    (h1 : beh k = .resp STK_INSYNC STK_OK) (h2 : beh (k + 1) = .readErr) :
    writePage beh k addr data =
      (k + 2, [Act.send (cmdBytes (loadCmd addr)), Act.send (cmdBytes (pageCmd data))],
       some .transport) := by
  unfold writePage
  simp [doExchange, h1, h2]

lemma writePage_pageFail (beh : Beh) (k : Nat) (addr : JNum) (data : List JNum)
    (c0 c1 : Nat) (h1 : beh k = .resp STK_INSYNC STK_OK) (h2 : beh (k + 1) = .resp c0 c1)
    (hok : ¬(c0 = STK_INSYNC ∧ c1 = STK_OK)) :
    writePage beh k addr data =
      (k + 2, [Act.send (cmdBytes (loadCmd addr)), Act.send (cmdBytes (pageCmd data))],
       some (.pageWrite addr)) := by
  unfold writePage
  simp only [doExchange, h1, h2]
  simp [hok]

lemma writePage_ok (beh : Beh) (k : Nat) (addr : JNum) (data : List JNum)
    (h1 : beh k = .resp STK_INSYNC STK_OK) (h2 : beh (k + 1) = .resp STK_INSYNC STK_OK) :
    writePage beh k addr data =
      (k + 2, [Act.send (cmdBytes (loadCmd addr)), Act.send (cmdBytes (pageCmd data))],
       none) := by
  unfold writePage
  simp [doExchange, h1, h2]

/-- C4.  `writePage(address, data)` sends exactly one load-address frame
`[0x55, addr & 0xFF, (addr >> 8) & 0xFF, 0x20]` immediately before the
page-write frame, which consists of the program-page opcode `0x64`, the
2-byte big-endian payload length, the flash memory-type byte `0x46`, the
payload bytes in order, and the terminator `0x20`; the pair of exchanges
succeeds iff both responses are `INSYNC, OK`, and a non-OK response to
either exchange throws immediately — no retry, no further frame from this
page. -/
theorem writePage_frames_spec (beh : Beh) (k : Nat) (addr : JNum) (data : List JNum) :
    ((writePage beh k addr data).2.2 = none ↔
        (beh k = .resp STK_INSYNC STK_OK ∧ beh (k + 1) = .resp STK_INSYNC STK_OK))
  ∧ ((writePage beh k addr data).2.2 = none →
        writePage beh k addr data =
          (k + 2, [Act.send (cmdBytes (loadCmd addr)), Act.send (cmdBytes (pageCmd data))],
           none))
  ∧ (∀ b0 b1, beh k = .resp b0 b1 → ¬(b0 = STK_INSYNC ∧ b1 = STK_OK) →
        writePage beh k addr data =
          (k + 1, [Act.send (cmdBytes (loadCmd addr))], some (.setAddr addr)))
  ∧ (∀ c0 c1, beh k = .resp STK_INSYNC STK_OK → beh (k + 1) = .resp c0 c1 →
        ¬(c0 = STK_INSYNC ∧ c1 = STK_OK) →
        writePage beh k addr data =
          (k + 2, [Act.send (cmdBytes (loadCmd addr)), Act.send (cmdBytes (pageCmd data))],
           some (.pageWrite addr)))
  ∧ (∀ a : Nat, a < 2 ^ 16 →
        cmdBytes (loadCmd (some (a : Int))) = [0x55, a % 256, a / 256, 0x20])
  ∧ (data.length < 2 ^ 15 →
        cmdBytes (pageCmd data) =
          [0x64, data.length / 256, data.length % 256, 0x46] ++
            data.map jsToUint8 ++ [0x20]) := by
  have hcases : (writePage beh k addr data).2.2 = none ↔
      (beh k = .resp STK_INSYNC STK_OK ∧ beh (k + 1) = .resp STK_INSYNC STK_OK) := by
    constructor
    · intro hnone
      rcases o1 : beh k with _ | _ | ⟨b0, b1⟩
      · rw [writePage_sendErr1 beh k addr data o1] at hnone; simp at hnone
      · rw [writePage_readErr1 beh k addr data o1] at hnone; simp at hnone
      · by_cases hok1 : b0 = STK_INSYNC ∧ b1 = STK_OK
        · obtain ⟨rfl, rfl⟩ := hok1
          rcases o2 : beh (k + 1) with _ | _ | ⟨c0, c1⟩
          · rw [writePage_sendErr2 beh k addr data o1 o2] at hnone; simp at hnone
          · rw [writePage_readErr2 beh k addr data o1 o2] at hnone; simp at hnone
          · by_cases hok2 : c0 = STK_INSYNC ∧ c1 = STK_OK
            · obtain ⟨rfl, rfl⟩ := hok2
              exact ⟨rfl, rfl⟩
            · rw [writePage_pageFail beh k addr data c0 c1 o1 o2 hok2] at hnone
              simp at hnone
        · rw [writePage_addrFail beh k addr data b0 b1 o1 hok1] at hnone
          simp at hnone
    · rintro ⟨h1, h2⟩
      rw [writePage_ok beh k addr data h1 h2]
  refine ⟨hcases, ?_, ?_, ?_, ?_, ?_⟩
  · intro hnone
    obtain ⟨h1, h2⟩ := hcases.mp hnone
    exact writePage_ok beh k addr data h1 h2
  · intro b0 b1 h hok
    exact writePage_addrFail beh k addr data b0 b1 h hok
  · intro c0 c1 h1 h2 hok
    exact writePage_pageFail beh k addr data c0 c1 h1 h2 hok
  · intro a ha
    exact cmdBytes_loadCmd a ha
  · intro hlen
    exact cmdBytes_pageCmd data hlen

/-- Witness for C4: a concrete `writePage` at address `0x0123` with a
2-byte payload over an always-OK transport sends exactly the load-address
frame then the page frame and succeeds. -/
theorem writePage_frames_spec_witness :
    writePage behAllOk 0 (some 0x0123) [some 1, some 2] =
      (0 + 2, [Act.send (cmdBytes (loadCmd (some 0x0123))),
               Act.send (cmdBytes (pageCmd [some 1, some 2]))], none) :=
  (writePage_frames_spec behAllOk 0 (some 0x0123) [some 1, some 2]).2.1 (by rfl)

/-! ## C6: extended-linear-address records have no effect -/

def obsUL (r : Nat × List Act × Option UErr) : Nat × List (List Nat) × Option UErr :=
  (r.1, sendsOf r.2.1, r.2.2)

lemma sendsOf_cons_prog (s : Stage) (p : ℚ) (acts : List Act) :
    sendsOf (Act.prog s p :: acts) = sendsOf acts := by
  simp [sendsOf, List.filterMap_cons]

lemma uploadLines_cons_none (beh : Beh) (n : Nat) (l : List Char)
    (rest : List (List Char)) (i k : Nat) (hp : processLine l = none) :
    uploadLines beh n (l :: rest) i k =
      ((uploadLines beh n rest (i + 1) k).1,
       Act.prog .uploading (lineProg n i) :: (uploadLines beh n rest (i + 1) k).2.1,
       (uploadLines beh n rest (i + 1) k).2.2) := by
  rw [uploadLines, hp]

lemma uploadLines_cons_some (beh : Beh) (n : Nat) (l : List Char)
    (rest : List (List Char)) (i k : Nat) (addr : JNum) (data : List JNum)
    (hp : processLine l = some (addr, data)) :
    uploadLines beh n (l :: rest) i k =
      (match writePage beh k addr data with
       | (k1, wacts, some e) => (k1, Act.prog .uploading (lineProg n i) :: wacts, some e)
       | (k1, wacts, none) =>
         ((uploadLines beh n rest (i + 1) k1).1,
          Act.prog .uploading (lineProg n i) ::
            (wacts ++ (uploadLines beh n rest (i + 1) k1).2.1),
          (uploadLines beh n rest (i + 1) k1).2.2)) := by
  rw [uploadLines, hp]

lemma processLine_none_of_type4 (l : List Char) (h : recType l = some 4) :
    processLine l = none := by
  unfold processLine
  split
  · rfl
  · rw [if_neg]
    rintro ⟨h0, _⟩
    rw [h] at h0
    exact absurd (Option.some.injEq _ _ ▸ h0) (by norm_num)

lemma uploadLines_obs_indep (beh : Beh) :
    ∀ (ls : List (List Char)) (n1 n2 i1 i2 k : Nat),
      obsUL (uploadLines beh n1 ls i1 k) = obsUL (uploadLines beh n2 ls i2 k) := by
  intro ls
  induction ls with
  | nil => intro n1 n2 i1 i2 k; rfl
  | cons l rest ih =>
    intro n1 n2 i1 i2 k
    cases hp : processLine l with
    | none =>
      rw [uploadLines_cons_none beh n1 l rest i1 k hp,
        uploadLines_cons_none beh n2 l rest i2 k hp]
      unfold obsUL
      rw [sendsOf_cons_prog, sendsOf_cons_prog]
      have h := ih n1 n2 (i1 + 1) (i2 + 1) k
      unfold obsUL at h
      rw [Prod.mk.injEq, Prod.mk.injEq] at h
      rw [h.1, h.2.1, h.2.2]
    | some ad =>
      obtain ⟨addr, data⟩ := ad
      rw [uploadLines_cons_some beh n1 l rest i1 k addr data hp,
        uploadLines_cons_some beh n2 l rest i2 k addr data hp]
      rcases hw : writePage beh k addr data with ⟨k1, wacts, we⟩
      cases we with
      | some e =>
        unfold obsUL
        rw [sendsOf_cons_prog, sendsOf_cons_prog]
      | none =>
        unfold obsUL
        rw [sendsOf_cons_prog, sendsOf_cons_prog, sendsOf_append, sendsOf_append]
        have h := ih n1 n2 (i1 + 1) (i2 + 1) k1
        unfold obsUL at h
        rw [Prod.mk.injEq, Prod.mk.injEq] at h
        rw [h.1, h.2.1, h.2.2]

/-- C6.  Extended-linear-address records (type `0x04`) are inert: deleting
such a record from the line sequence changes neither the byte frames sent,
nor the final error, nor the number of exchanges consumed — the upper
16 address bits they carry are never applied.  Moreover the address handed
to each page write is exactly the parse of that record's own 16-bit
address field (`line.substr(3, 4)`), so files beyond 64 KiB get wrong
absolute addresses. -/
theorem extended_address_records_ignored (beh : Beh) (n1 n2 i1 i2 k : Nat)
    (pre post : List (List Char)) (l : List Char) (h : recType l = some 4) :
    (obsUL (uploadLines beh n1 (pre ++ l :: post) i1 k) =
       obsUL (uploadLines beh n2 (pre ++ post) i2 k))
  ∧ (∀ l' a d, processLine l' = some (a, d) → a = jsParseIntHex (jsSubstr l' 3 4)) := by
  constructor
  · induction pre generalizing i1 i2 k with
    | nil =>
      simp only [List.nil_append]
      rw [uploadLines_cons_none beh n1 l post i1 k (processLine_none_of_type4 l h)]
      unfold obsUL
      rw [sendsOf_cons_prog]
      have h2 := uploadLines_obs_indep beh post n1 n2 (i1 + 1) i2 k
      unfold obsUL at h2
      rw [Prod.mk.injEq, Prod.mk.injEq] at h2
      rw [h2.1, h2.2.1, h2.2.2]
    | cons p pre' ih =>
      simp only [List.cons_append]
      cases hp : processLine p with
      | none =>
        rw [uploadLines_cons_none beh n1 p (pre' ++ l :: post) i1 k hp,
          uploadLines_cons_none beh n2 p (pre' ++ post) i2 k hp]
        unfold obsUL
        rw [sendsOf_cons_prog, sendsOf_cons_prog]
        have h2 := ih (i1 + 1) (i2 + 1) k
        unfold obsUL at h2
        rw [Prod.mk.injEq, Prod.mk.injEq] at h2
        rw [h2.1, h2.2.1, h2.2.2]
      | some ad =>
        obtain ⟨addr, data⟩ := ad
        rw [uploadLines_cons_some beh n1 p (pre' ++ l :: post) i1 k addr data hp,
          uploadLines_cons_some beh n2 p (pre' ++ post) i2 k addr data hp]
        rcases hw : writePage beh k addr data with ⟨k1, wacts, we⟩
        cases we with
        | some e =>
          unfold obsUL
          rw [sendsOf_cons_prog, sendsOf_cons_prog]
        | none =>
          unfold obsUL
          rw [sendsOf_cons_prog, sendsOf_cons_prog, sendsOf_append, sendsOf_append]
          have h2 := ih (i1 + 1) (i2 + 1) k1
          unfold obsUL at h2
          rw [Prod.mk.injEq, Prod.mk.injEq] at h2
          rw [h2.1, h2.2.1, h2.2.2]
  · intro l' a d hp
    unfold processLine at hp
    split at hp
    · exact absurd hp (by simp)
    · split at hp
      · injection hp with hp2
        have := congrArg Prod.fst hp2
        exact this.symm
      · exact absurd hp (by simp)

/-- Witness for C6: deleting the extended-address record `:020000040001F9`
from between two data records leaves the sent frames, error outcome, and
exchange count unchanged. -/
theorem extended_address_records_ignored_witness :
    (obsUL (uploadLines behAllOk 3
        [[':', '0', '1', '0', '0', '0', '0', '0', '0', 'A', 'B', 'F', 'F'],
         [':', '0', '2', '0', '0', '0', '0', '0', '4', '0', '0', '0', '1', 'F', '9'],
         [':', '0', '1', '0', '0', '1', '0', '0', '0', 'C', 'D', 'F', 'F']] 0 0) =
       obsUL (uploadLines behAllOk 2
        [[':', '0', '1', '0', '0', '0', '0', '0', '0', 'A', 'B', 'F', 'F'],
         [':', '0', '1', '0', '0', '1', '0', '0', '0', 'C', 'D', 'F', 'F']] 5 0))
  ∧ (∀ l' a d, processLine l' = some (a, d) → a = jsParseIntHex (jsSubstr l' 3 4)) :=
  extended_address_records_ignored behAllOk 3 2 0 5 0
    [[':', '0', '1', '0', '0', '0', '0', '0', '0', 'A', 'B', 'F', 'F']]
    [[':', '0', '1', '0', '0', '1', '0', '0', '0', 'C', 'D', 'F', 'F']]
    [':', '0', '2', '0', '0', '0', '0', '0', '4', '0', '0', '0', '1', 'F', '9']
    (by decide)

/-! ## C5: progress monotonicity on successful runs -/

lemma progsOf_cons_prog (s : Stage) (p : ℚ) (acts : List Act) :
    progsOf (Act.prog s p :: acts) = p :: progsOf acts := by
  simp [progsOf, List.filterMap_cons]

lemma uploadLines_cons_some_fail (beh : Beh) (n : Nat) (l : List Char)
    (rest : List (List Char)) (i k : Nat) (addr : JNum) (data : List JNum)
    (k1 : Nat) (wacts : List Act) (e : UErr)
    (hp : processLine l = some (addr, data))
    (hw : writePage beh k addr data = (k1, wacts, some e)) :
    uploadLines beh n (l :: rest) i k =
      (k1, Act.prog .uploading (lineProg n i) :: wacts, some e) := by
  rw [uploadLines, hp]
  simp only [hw]

lemma uploadLines_cons_some_ok (beh : Beh) (n : Nat) (l : List Char)
    (rest : List (List Char)) (i k : Nat) (addr : JNum) (data : List JNum)
    (k1 : Nat) (wacts : List Act)
    (hp : processLine l = some (addr, data))
    (hw : writePage beh k addr data = (k1, wacts, none)) :
    uploadLines beh n (l :: rest) i k =
      ((uploadLines beh n rest (i + 1) k1).1,
       Act.prog .uploading (lineProg n i) ::
         (wacts ++ (uploadLines beh n rest (i + 1) k1).2.1),
       (uploadLines beh n rest (i + 1) k1).2.2) := by
  rw [uploadLines, hp]
  simp only [hw]

lemma uploadLines_success_progs (beh : Beh) (n : Nat) :
    ∀ (ls : List (List Char)) (i k k' : Nat) (acts : List Act),
      uploadLines beh n ls i k = (k', acts, none) →
      progsOf acts = (List.range ls.length).map fun j => lineProg n (i + j) := by
  intro ls
  induction ls with
  | nil =>
    intro i k k' acts h
    rw [uploadLines] at h
    have : acts = [] := (congrArg (fun p => p.2.1) h).symm
    subst this
    rfl
  | cons l rest ih =>
    intro i k k' acts h
    have hstep : ∀ (acts2 : List Act), progsOf acts2 =
        (List.range rest.length).map (fun j => lineProg n (i + 1 + j)) →
        lineProg n i :: progsOf acts2 =
          (List.range (rest.length + 1)).map fun j => lineProg n (i + j) := by
      intro acts2 h2
      rw [h2, List.range_succ_eq_map, List.map_cons, List.map_map]
      congr 1
      refine List.map_congr_left fun j _ => ?_
      have : i + (j + 1) = i + 1 + j := by omega
      simp [Function.comp, this]
    cases hp : processLine l with
    | none =>
      rcases hr : uploadLines beh n rest (i + 1) k with ⟨k2, acts2, e2⟩
      rw [uploadLines_cons_none beh n l rest i k hp, hr] at h
      rw [Prod.mk.injEq, Prod.mk.injEq] at h
      obtain ⟨hk, hacts, he⟩ := h
      subst he
      rw [← hacts, progsOf_cons_prog]
      exact hstep acts2 (ih (i + 1) k k2 acts2 hr)
    | some ad =>
      obtain ⟨addr, data⟩ := ad
      rcases hw : writePage beh k addr data with ⟨k1, wacts, we⟩
      cases we with
      | some e =>
        rw [uploadLines_cons_some_fail beh n l rest i k addr data k1 wacts e hp hw] at h
        exact absurd (congrArg (fun p => p.2.2) h) (by simp)
      | none =>
        rcases hr : uploadLines beh n rest (i + 1) k1 with ⟨k2, acts2, e2⟩
        rw [uploadLines_cons_some_ok beh n l rest i k addr data k1 wacts hp hw, hr] at h
        rw [Prod.mk.injEq, Prod.mk.injEq] at h
        obtain ⟨hk, hacts, he⟩ := h
        subst he
        rw [← hacts, progsOf_cons_prog, progsOf_append,
          progsOf_eq_nil_of_all_isSend (by
            have := writePage_acts_all beh k addr data
            rw [hw] at this
            exact this)]
        rw [List.nil_append]
        exact hstep acts2 (ih (i + 1) k1 k2 acts2 hr)

lemma enterProg_success_progs (beh : Beh) (fuel k k1 : Nat) (acts : List Act)
    (h : enterProgrammingMode beh fuel k = some (k1, acts, none)) :
    progsOf acts = [10, 20] := by
  unfold enterProgrammingMode at h
  split at h
  · exact absurd h (by simp)
  · exact absurd h (by simp)
  · next k2 sacts heq =>
    have hs : progsOf sacts = [] :=
      progsOf_eq_nil_of_all_isSend (syncLoop_acts_all beh fuel k 0 _ heq)
    split at h
    · exact absurd h (by simp)
    · next k3 eacts b0 b1 heq2 =>
      have he : progsOf eacts = [] :=
        progsOf_eq_nil_of_all_isSend (all_isSend_of_eq_doExchange heq2)
      split at h
      · have hacts : acts = Act.prog .connecting 10 ::
            (sacts ++ Act.prog .syncing 20 :: eacts) := by
          have := congrArg (fun o => (Option.map (fun p => p.2.1) o).getD []) h
          simpa using this.symm
        rw [hacts, progsOf_cons_prog, progsOf_append, hs, progsOf_cons_prog, he]
        rfl
      · exact absurd h (by simp)

lemma uploadHexData_success_progs (beh : Beh) (text : List Char) (k k2 : Nat)
    (a2 : List Act) (h : uploadHexData beh text k = (k2, a2, none)) :
    progsOf a2 = 30 ::
      (List.range (hexLines text).length).map (lineProg (hexLines text).length) := by
  rw [uploadHexData_eq] at h
  rw [Prod.mk.injEq, Prod.mk.injEq] at h
  obtain ⟨hk, hacts, he⟩ := h
  rcases hr : uploadLines beh (hexLines text).length (hexLines text) 0 k with ⟨k3, a3, e3⟩
  rw [hr] at hacts he
  dsimp only [] at hacts he
  subst he
  rw [← hacts, progsOf_cons_prog]
  have := uploadLines_success_progs beh (hexLines text).length (hexLines text) 0 k k3 a3 hr
  rw [this]
  congr 1
  exact List.map_congr_left fun j _ => by rw [Nat.zero_add]

lemma uploadSketch_success_progs (text : List Char) (beh : Beh) (fuel : Nat) (r : Run)
    (h : uploadSketch text beh fuel = some r) (hok : r.ok = true) :
    progsOf r.acts =
      [10, 20, 30] ++
        (List.range (hexLines text).length).map (lineProg (hexLines text).length) ++
        [85, 95, 100] := by
  unfold uploadSketch at h
  split at h
  · exact absurd h (by simp)
  · next k1 a1 e heq =>
    cases h
    exact absurd hok (by simp)
  · next k1 a1 heq =>
    split at h
    · next k2 a2 e heq2 =>
      cases h
      exact absurd hok (by simp)
    · next k2 a2 heq2 =>
      split at h
      · next k4 a4 e heq4 =>
        cases h
        exact absurd hok (by simp)
      · next k4 a4 heq4 =>
        cases h
        have h1 := enterProg_success_progs beh fuel 0 k1 a1 heq
        have h2 := uploadHexData_success_progs beh text k1 k2 a2 heq2
        have h4 : progsOf a4 = [] := by
          refine progsOf_eq_nil_of_all_isSend ?_
          have := leave_acts_all beh k2
          rw [heq4] at this
          exact this
        show progsOf (a1 ++ a2 ++ verifyActs ++ a4 ++
          [Act.prog .complete 100, Act.cleanup]) = _
        rw [progsOf_append, progsOf_append, progsOf_append, progsOf_append,
          h1, h2, h4]
        simp [verifyActs, progsOf, List.filterMap_cons]

lemma chain'_map_range_mono (f : ℕ → ℚ) (m : Nat) (hf : ∀ j, f j ≤ f (j + 1)) :
    List.Chain' (· ≤ ·) ((List.range m).map f) := by
  rw [List.chain'_map]
  cases m with
  | zero => simp
  | succ q =>
    rw [List.chain'_range_succ]
    intro a _
    exact hf a

lemma lineProg_mono (n j : Nat) : lineProg n j ≤ lineProg n (j + 1) := by
  unfold lineProg
  rcases Nat.eq_zero_or_pos n with hn | hn
  · subst hn
    norm_num
  · have hnq : (0 : ℚ) < (n : ℚ) := by exact_mod_cast hn
    have hj : (j : ℚ) ≤ ((j + 1 : Nat) : ℚ) := by push_cast; linarith
    have hdiv : (j : ℚ) / n ≤ ((j + 1 : Nat) : ℚ) / n := by gcongr
    linarith

lemma lineProg_le_80 (n j : Nat) (h : j < n) : lineProg n j ≤ 80 := by
  unfold lineProg
  have hn : 0 < n := by omega
  have hnq : (0 : ℚ) < (n : ℚ) := by exact_mod_cast hn
  have hdiv : (j : ℚ) / n ≤ 1 := by
    rw [div_le_one hnq]
    exact_mod_cast Nat.le_of_lt h
  nlinarith [hdiv]

lemma lineProg_zero_ge_30 (n : Nat) : 30 ≤ lineProg n 0 := by
  unfold lineProg
  rcases Nat.eq_zero_or_pos n with hn | hn
  · subst hn; norm_num
  · have hnq : (0 : ℚ) < (n : ℚ) := by exact_mod_cast hn
    have : (0 : ℚ) / n = 0 := by simp
    rw [Nat.cast_zero, this]
    norm_num

/-- C5.  On every run of `uploadSketch` that ends in success, the sequence
of progress percentages handed to the `onProgress` callback is
non-decreasing and its final value is 100. -/
theorem upload_progress_monotone_on_success (text : List Char) (beh : Beh) (fuel : Nat)
    (r : Run) (h : uploadSketch text beh fuel = some r) (hok : r.ok = true) :
    List.Chain' (· ≤ ·) (progsOf r.acts) ∧ (progsOf r.acts).getLast? = some 100 := by
  rw [uploadSketch_success_progs text beh fuel r h hok]
  set n := (hexLines text).length with hn
  constructor
  · rw [List.append_assoc, List.chain'_append]
    refine ⟨?_, ?_, ?_⟩
    · norm_num [List.chain'_cons]
    · rw [List.chain'_append]
      refine ⟨chain'_map_range_mono (lineProg n) n (lineProg_mono n), ?_, ?_⟩
      · norm_num [List.chain'_cons]
      · intro x hx y hy
        simp only [List.head?_cons, Option.mem_def, Option.some.injEq] at hy
        subst hy
        cases hcase : n with
        | zero => rw [hcase] at hx; simp at hx
        | succ q =>
          rw [hcase, List.getLast?_map,
            show (List.range (q + 1)).getLast? = some q by simp [List.range_succ]] at hx
          simp at hx
          subst hx
          exact le_trans (lineProg_le_80 (q + 1) q (by omega)) (by norm_num)
    · intro x hx y hy
      simp only [List.getLast?_cons_cons, List.getLast?_singleton, Option.mem_def,
        Option.some.injEq] at hx
      subst hx
      cases hcase : n with
      | zero =>
        rw [hcase] at hy
        simp only [List.range_zero, List.map_nil, List.nil_append, List.head?_cons,
          Option.mem_def, Option.some.injEq] at hy
        subst hy
        norm_num
      | succ q =>
        rw [hcase, List.range_succ_eq_map, List.map_cons, List.cons_append] at hy
        simp only [List.head?_cons, Option.mem_def, Option.some.injEq] at hy
        subst hy
        exact lineProg_zero_ge_30 (q + 1)
  · rw [show [(10 : ℚ), 20, 30] ++ (List.range n).map (lineProg n) ++ [85, 95, 100] =
      ([(10 : ℚ), 20, 30] ++ (List.range n).map (lineProg n) ++ [85, 95]) ++ [100] by simp]
    exact List.getLast?_concat _

/-- Witness for C5: the spec's concrete scenario — three data records of
16, 16 and 8 bytes followed by the end-of-file record — over an always-OK
transport: the emitted percentages are non-decreasing and end at 100. -/
theorem upload_progress_monotone_on_success_witness :
    List.Chain' (· ≤ ·)
      (progsOf ((uploadSketch
        (String.data (":10000000000102030405060708090A0B0C0D0E0F78\n:10001000101112131415161718191A1B1C1D1E1F68\n:08002000202122232425262750\n:00000001FF"))
        behAllOk 15).getD ⟨[], false, none⟩).acts) ∧
    (progsOf ((uploadSketch
        (String.data (":10000000000102030405060708090A0B0C0D0E0F78\n:10001000101112131415161718191A1B1C1D1E1F68\n:08002000202122232425262750\n:00000001FF"))
        behAllOk 15).getD ⟨[], false, none⟩).acts).getLast? = some 100 :=
  upload_progress_monotone_on_success
    (String.data (":10000000000102030405060708090A0B0C0D0E0F78\n:10001000101112131415161718191A1B1C1D1E1F68\n:08002000202122232425262750\n:00000001FF"))
    behAllOk 15 _ (by rfl) (by rfl)

/-! ## C8: checksum bytes are never read -/

/-- Two lines that are equal, or are both record-shaped and agree
everywhere except in the final two characters (the checksum field): both
start with the record marker, have the same length, agree at every
position except the last two, and their declared byte count `v` places the
checksum exactly in those last two characters. -/
def lineEquiv (l1 l2 : List Char) : Prop :=
  l1 = l2 ∨
  (l1.length = l2.length ∧ startsWithColon l1 = true ∧ startsWithColon l2 = true ∧
   (∀ j, j + 2 < l1.length → l1[j]? = l2[j]?) ∧
   ∃ v : Nat, recLen l1 = some (v : Int) ∧ 9 + 2 * v + 2 ≤ l1.length)

/-- Two hex texts that differ only in the checksum bytes of their records. -/
def textEquiv (t1 t2 : List Char) : Prop :=
  List.Forall₂ lineEquiv (splitNL t1) (splitNL t2)

lemma jsSubstr_eq_of_agree (l1 l2 : List Char) (hlen : l1.length = l2.length)
    (hag : ∀ j, j + 2 < l1.length → l1[j]? = l2[j]?)
    (s m : Nat) (hsm : s + m + 2 ≤ l1.length) :
    jsSubstr l1 s m = jsSubstr l2 s m := by
  unfold jsSubstr
  apply List.ext_getElem?
  intro j
  by_cases hj : j < m
  · rw [List.getElem?_take_of_lt hj, List.getElem?_take_of_lt hj,
      List.getElem?_drop, List.getElem?_drop]
    exact hag (s + j) (by omega)
  · rw [List.getElem?_eq_none, List.getElem?_eq_none]
    · simp only [List.length_take, List.length_drop]
      omega
    · simp only [List.length_take, List.length_drop]
      omega

lemma dropWhile_ne_nil_of_mem {p : Char → Bool} {L : List Char} {a : Char}
    (ha : a ∈ L) (hpa : p a = false) : L.dropWhile p ≠ [] := by
  induction L with
  | nil => cases ha
  | cons b rest ih =>
    rw [List.dropWhile_cons]
    by_cases hb : p b = true
    · rw [if_pos hb]
      rcases List.mem_cons.mp ha with rfl | ha'
      · rw [hpa] at hb; cases hb
      · exact ih ha'
    · rw [if_neg hb]
      simp

lemma jsTrim_ne_nil_of_colon (l : List Char) (h : startsWithColon l = true) :
    (jsTrim l).isEmpty = false := by
  obtain ⟨rest, rfl⟩ : ∃ rest, l = ':' :: rest := by
    unfold startsWithColon at h
    split at h
    · next rest => exact ⟨rest, rfl⟩
    · exact absurd h (by simp)
  unfold jsTrim
  rw [List.dropWhile_cons, if_neg (by decide)]
  cases hcase : (':' :: rest).reverse.dropWhile isJsWs with
  | nil =>
    exact absurd hcase (dropWhile_ne_nil_of_mem (a := ':') (by simp) (by decide))
  | cons x xs => simp

lemma keepLine_of_equiv (l1 l2 : List Char) (h : lineEquiv l1 l2) :
    (!(jsTrim l1).isEmpty && startsWithColon l1) =
      (!(jsTrim l2).isEmpty && startsWithColon l2) := by
  rcases h with rfl | ⟨_, hc1, hc2, _, _⟩
  · rfl
  · rw [hc1, hc2, jsTrim_ne_nil_of_colon l1 hc1, jsTrim_ne_nil_of_colon l2 hc2]

lemma forall₂_filter_of_pred_eq {R : List Char → List Char → Prop}
    {p : List Char → Bool} (hp : ∀ a b, R a b → p a = p b) :
    ∀ {l1 l2 : List (List Char)}, List.Forall₂ R l1 l2 →
      List.Forall₂ R (l1.filter p) (l2.filter p) := by
  intro l1 l2 h
  induction h with
  | nil => simp [List.filter_nil]
  | @cons a b as bs hab _ ih =>
    rw [List.filter_cons, List.filter_cons, ← hp a b hab]
    by_cases hpa : p a = true
    · rw [if_pos hpa, if_pos hpa]
      exact List.Forall₂.cons hab ih
    · rw [if_neg hpa, if_neg hpa]
      exact ih

lemma processLine_equiv (l1 l2 : List Char) (h : lineEquiv l1 l2) :
    processLine l1 = processLine l2 := by
  rcases h with rfl | ⟨hlen, _, _, hag, v, hv, hvlen⟩
  · rfl
  have h11 : 11 ≤ l1.length := by omega
  have hrecLen : recLen l1 = recLen l2 :=
    congrArg jsParseIntHex (jsSubstr_eq_of_agree l1 l2 hlen hag 1 2 (by omega))
  have hrecType : recType l1 = recType l2 :=
    congrArg jsParseIntHex (jsSubstr_eq_of_agree l1 l2 hlen hag 7 2 (by omega))
  have hrecAddr : recAddr l1 = recAddr l2 :=
    congrArg jsParseIntHex (jsSubstr_eq_of_agree l1 l2 hlen hag 3 4 (by omega))
  have hdata : ∀ j, j < jsNumToNat (recLen l1) →
      jsSubstr l1 (9 + 2 * j) 2 = jsSubstr l2 (9 + 2 * j) 2 := by
    intro j hj
    rw [hv] at hj
    have hjv : j < v := by
      unfold jsNumToNat at hj
      exact_mod_cast hj
    exact jsSubstr_eq_of_agree l1 l2 hlen hag (9 + 2 * j) 2 (by omega)
  unfold processLine
  rw [← hlen, ← hrecType, ← hrecLen, ← hrecAddr]
  by_cases hlt : l1.length < 11
  · rw [if_pos hlt, if_pos hlt]
  · rw [if_neg hlt, if_neg hlt]
    by_cases hcond : recType l1 = some 0 ∧ jsPos (recLen l1)
    · rw [if_pos hcond, if_pos hcond]
      congr 1
      rw [Prod.mk.injEq]
      refine ⟨rfl, List.map_congr_left fun j hj => ?_⟩
      rw [List.mem_range] at hj
      exact congrArg jsParseIntHex (hdata j hj)
    · rw [if_neg hcond, if_neg hcond]

lemma uploadLines_equiv (beh : Beh) (n : Nat) :
    ∀ {ls1 ls2 : List (List Char)}, List.Forall₂ lineEquiv ls1 ls2 →
      ∀ i k, uploadLines beh n ls1 i k = uploadLines beh n ls2 i k := by
  intro ls1 ls2 h
  induction h with
  | nil => intro i k; rfl
  | @cons a b as bs hab _ ih =>
    intro i k
    conv_lhs => rw [uploadLines]
    conv_rhs => rw [uploadLines]
    rw [processLine_equiv a b hab]
    simp only [ih]

/-- C8.  The checksum byte of a record is never read, much less validated:
two hex texts that differ only in the checksum bytes of their records give
byte-for-byte the same run — identical frames sent to the device,
identical progress snapshots, the same terminal result and error — for
every transport behavior and fuel. -/
theorem checksum_bytes_irrelevant (t1 t2 : List Char) (beh : Beh) (fuel : Nat)
    (h : textEquiv t1 t2) :
    uploadSketch t1 beh fuel = uploadSketch t2 beh fuel := by
  have hf : List.Forall₂ lineEquiv (hexLines t1) (hexLines t2) :=
    forall₂_filter_of_pred_eq keepLine_of_equiv h
  have hlen : (hexLines t1).length = (hexLines t2).length := hf.length_eq
  have hup : ∀ k, uploadHexData beh t1 k = uploadHexData beh t2 k := by
    intro k
    rw [uploadHexData_eq, uploadHexData_eq, hlen,
      uploadLines_equiv beh (hexLines t2).length hf 0 k]
  unfold uploadSketch
  simp only [hup]

/-- Witness for C8: changing the checksum bytes of both records
(`FE → 00` on the data record, `FF → AB` on the end-of-file record) leaves
the entire run unchanged. -/
theorem checksum_bytes_irrelevant_witness :
    uploadSketch (String.data ":0100000001FE\n:00000001FF") behAllOk 5 =
      uploadSketch (String.data ":010000000100\n:00000001AB") behAllOk 5 :=
  checksum_bytes_irrelevant
    (String.data ":0100000001FE\n:00000001FF")
    (String.data ":010000000100\n:00000001AB") behAllOk 5
    (List.Forall₂.cons
      (show lineEquiv
          [':', '0', '1', '0', '0', '0', '0', '0', '0', '0', '1', 'F', 'E']
          [':', '0', '1', '0', '0', '0', '0', '0', '0', '0', '1', '0', '0'] from
        Or.inr ⟨by decide, by decide, by decide,
          fun j hj => by
            have h11 : j < 11 := by simp at hj; omega
            interval_cases j <;> rfl,
          ⟨1, by decide, by decide⟩⟩)
      (List.Forall₂.cons
        (show lineEquiv
            [':', '0', '0', '0', '0', '0', '0', '0', '1', 'F', 'F']
            [':', '0', '0', '0', '0', '0', '0', '0', '1', 'A', 'B'] from
          Or.inr ⟨by decide, by decide, by decide,
            fun j hj => by
              have h9 : j < 9 := by simp at hj; omega
              interval_cases j <;> rfl,
            ⟨0, by decide, by decide⟩⟩)
        List.Forall₂.nil))
